import Mathlib

/-!
Verification development for the claudia repository: a shallow embedding of
the Issues component's filtering logic (src/src/components/Issues.tsx) and of
the multi-agent feature-orchestration core described in the specification
(Branch Allocator, Run Registry, Orchestrator, Event Bus). The orchestration
core is not present in the given source tree, so its definitions are modelled
from the specification text.
-/

namespace Claudia

/-! ## Issues component (src/src/components/Issues.tsx) -/

/-- An issue row as loaded by the Issues component:
`{repository, number, title, state, labels, html_url}` with
`state: "open" | "closed"`. -/
structure Issue where
  repository : String
  number : Nat
  title : String
  state : String
  labels : List String
  htmlUrl : String
deriving DecidableEq, Repr

/-- JavaScript `hay.includes(needle)`: substring containment. -/
def strIncludes (hay needle : String) : Bool :=
  decide (needle.toList <:+: hay.toList)

/-- The search predicate of `filteredIssues`:
`searchQuery === "" || issue.title.toLowerCase().includes(searchQuery.toLowerCase())
 || issue.repository.toLowerCase().includes(searchQuery.toLowerCase())`. -/
def matchesSearch (searchQuery : String) (issue : Issue) : Bool :=
  searchQuery == ""
    || strIncludes issue.title.toLower searchQuery.toLower
    || strIncludes issue.repository.toLower searchQuery.toLower

/-- The tab predicate of `filteredIssues`: `issue.state === activeTab`. -/
def matchesTab (activeTab : String) (issue : Issue) : Bool :=
  issue.state == activeTab

/-- `filteredIssues = issues.filter(issue => matchesSearch && matchesTab)`. -/
def filteredIssues (issues : List Issue) (searchQuery activeTab : String) :
    List Issue :=
  issues.filter (fun issue => matchesSearch searchQuery issue
    && matchesTab activeTab issue)

/-- Claim C10: `filteredIssues` keeps exactly the issues whose state equals the
active tab and which match the query (empty query, or title or repository
containing the query case-insensitively), preserves the original order (it is
a sublist of the input), and an empty query filters only by tab. -/
theorem filteredIssues_characterization
    (issues : List Issue) (searchQuery activeTab : String) :
    (∀ issue, issue ∈ filteredIssues issues searchQuery activeTab ↔
      issue ∈ issues ∧ issue.state = activeTab ∧
        (searchQuery = "" ∨
          searchQuery.toLower.toList <:+: issue.title.toLower.toList ∨
          searchQuery.toLower.toList <:+: issue.repository.toLower.toList))
    ∧ (filteredIssues issues searchQuery activeTab).Sublist issues
    ∧ (searchQuery = "" →
        filteredIssues issues searchQuery activeTab =
          issues.filter (fun issue => issue.state == activeTab)) := by
  refine ⟨fun issue => ?_, List.filter_sublist _, fun hq => ?_⟩
  · simp only [filteredIssues, List.mem_filter, Bool.and_eq_true,
      matchesSearch, matchesTab, strIncludes, Bool.or_eq_true, beq_iff_eq,
      decide_eq_true_eq, and_assoc]
    constructor
    · rintro ⟨hmem, hsearch, htab⟩
      exact ⟨hmem, htab, by tauto⟩
    · rintro ⟨hmem, htab, hsearch⟩
      exact ⟨hmem, by tauto, htab⟩
  · subst hq
    simp [filteredIssues, matchesSearch, matchesTab]

/-- Witness for C10 on a concrete issue list: the empty query keeps exactly
the open-tab issues, in order. -/
theorem filteredIssues_characterization_witness :
    filteredIssues
      [⟨"r1", 1, "Add dark mode", "open", [], "u1"⟩,
       ⟨"r2", 2, "Fix crash", "closed", [], "u2"⟩,
       ⟨"r3", 3, "Docs", "open", [], "u3"⟩] "" "open" =
      [⟨"r1", 1, "Add dark mode", "open", [], "u1"⟩,
       ⟨"r3", 3, "Docs", "open", [], "u3"⟩] := by
  rw [(filteredIssues_characterization
    [⟨"r1", 1, "Add dark mode", "open", [], "u1"⟩,
     ⟨"r2", 2, "Fix crash", "closed", [], "u2"⟩,
     ⟨"r3", 3, "Docs", "open", [], "u3"⟩] "" "open").2.2 rfl]
  decide

/-! ## Branch Allocator (spec section 4.2) -/

/-- Allocation failure. -/
inductive AllocError
  | allocationExhausted
deriving DecidableEq, Repr

/-- Modelled from the spec: the Branch Allocator's deterministic naming
scheme `feature/{runId}/{agentIndex}`, with a disambiguating suffix appended
on the `attempt`-th retry. The Allocator itself is not in the given source
tree. -/
def candidateName (runId agentIndex attempt : Nat) : String :=
  let base := "feature/" ++ toString runId ++ "/" ++ toString agentIndex
  if attempt = 0 then base else base ++ "-" ++ toString attempt

/-- Modelled from the spec: the process-wide set of already-allocated branch
names held by the Branch Allocator. -/
structure AllocatorState where
  allocated : List String
deriving DecidableEq, Repr

/-- Modelled from the spec: the bounded number of disambiguation attempts. -/
def maxAttempts : Nat := 10

/-- Modelled from the spec: search for the first candidate name, starting at
`attempt`, that is not in the already-allocated set, trying at most `fuel`
candidates. -/
def allocateGo (allocated : List String) (runId agentIndex : Nat) :
    Nat → Nat → Option String
  | _, 0 => none
  | attempt, fuel + 1 =>
    if allocated.contains (candidateName runId agentIndex attempt) then
      allocateGo allocated runId agentIndex (attempt + 1) fuel
    else
      some (candidateName runId agentIndex attempt)

/-- Modelled from the spec: `allocate(runId, agentIndex) → branchName`, a
uniqueness check against the process-wide set of already-allocated names,
retrying with a disambiguating suffix up to `maxAttempts` times and failing
with `AllocationExhausted` past that bound. On success the returned name is
recorded in the set. -/
def allocate (st : AllocatorState) (runId agentIndex : Nat) :
    Except AllocError (String × AllocatorState) :=
  match allocateGo st.allocated runId agentIndex 0 maxAttempts with
  | some c => .ok (c, ⟨c :: st.allocated⟩)
  | none => .error .allocationExhausted

/-- Modelled from the spec: allocate branch names for agent indices
`i, i+1, ..., i+n-1`, threading the allocator state. -/
def allocateFrom (st : AllocatorState) (runId agentIndex : Nat) :
    Nat → Except AllocError (List String × AllocatorState)
  | 0 => .ok ([], st)
  | n + 1 =>
    match allocate st runId agentIndex with
    | .error e => .error e
    | .ok (c, st1) =>
      match allocateFrom st1 runId (agentIndex + 1) n with
      | .error e => .error e
      | .ok (cs, st2) => .ok (c :: cs, st2)

/-- Modelled from the spec: allocate the `n` branch names of a run, one per
agent index `0..n-1`. -/
def allocateAll (st : AllocatorState) (runId n : Nat) :
    Except AllocError (List String × AllocatorState) :=
  allocateFrom st runId 0 n

theorem contains_true {l : List String} {a : String} :
    l.contains a = true ↔ a ∈ l := by
  simp

theorem allocateGo_not_mem (allocated : List String) (runId agentIndex : Nat) :
    ∀ attempt fuel c,
      allocateGo allocated runId agentIndex attempt fuel = some c →
      ¬ c ∈ allocated := by
  intro attempt fuel
  induction fuel generalizing attempt with
  | zero => intro c h; simp [allocateGo] at h
  | succ fuel ih =>
    intro c h
    rw [allocateGo] at h
    by_cases hc : allocated.contains (candidateName runId agentIndex attempt)
      = true
    · rw [if_pos hc] at h
      exact ih (attempt + 1) c h
    · rw [if_neg hc] at h
      cases h
      simpa [contains_true] using hc

theorem allocateGo_exhausted (allocated : List String)
    (runId agentIndex : Nat) :
    ∀ attempt fuel,
      (∀ a, a < attempt + fuel → attempt ≤ a →
        candidateName runId agentIndex a ∈ allocated) →
      allocateGo allocated runId agentIndex attempt fuel = none := by
  intro attempt fuel
  induction fuel generalizing attempt with
  | zero => intro _; simp [allocateGo]
  | succ fuel ih =>
    intro hall
    have hmem : candidateName runId agentIndex attempt ∈ allocated :=
      hall attempt (by omega) (le_refl _)
    rw [allocateGo, if_pos (contains_true.2 hmem)]
    exact ih (attempt + 1) (fun a h1 h2 => hall a (by omega) (by omega))

theorem allocate_ok (st : AllocatorState) (runId agentIndex : Nat)
    (c : String) (st1 : AllocatorState)
    (h : allocate st runId agentIndex = .ok (c, st1)) :
    ¬ c ∈ st.allocated ∧ st1.allocated = c :: st.allocated := by
  unfold allocate at h
  cases hgo : allocateGo st.allocated runId agentIndex 0 maxAttempts with
  | none => rw [hgo] at h; cases h
  | some d =>
    rw [hgo] at h
    cases h
    exact ⟨allocateGo_not_mem st.allocated runId agentIndex 0 maxAttempts _
      hgo, rfl⟩

theorem allocateFrom_ok (runId : Nat) :
    ∀ n st agentIndex cs st2,
      allocateFrom st runId agentIndex n = .ok (cs, st2) →
      cs.length = n ∧ cs.Nodup ∧ (∀ c ∈ cs, ¬ c ∈ st.allocated) ∧
        st2.allocated = cs.reverse ++ st.allocated := by
  intro n
  induction n with
  | zero =>
    intro st agentIndex cs st2 h
    simp only [allocateFrom] at h
    cases h
    simp
  | succ n ih =>
    intro st agentIndex cs st2 h
    rw [allocateFrom] at h
    cases halloc : allocate st runId agentIndex with
    | error e => rw [halloc] at h; cases h
    | ok p =>
      obtain ⟨c, st1⟩ := p
      rw [halloc] at h
      dsimp only at h
      cases hrest : allocateFrom st1 runId (agentIndex + 1) n with
      | error e => rw [hrest] at h; cases h
      | ok q =>
        obtain ⟨cs1, st3⟩ := q
        rw [hrest] at h
        dsimp only at h
        cases h
        obtain ⟨hnotmem, hst1⟩ := allocate_ok st runId agentIndex _ _ halloc
        obtain ⟨hlen, hnodup, hfresh, hst2⟩ :=
          ih st1 (agentIndex + 1) _ _ hrest
        rw [hst1] at hfresh hst2
        refine ⟨by simp [hlen], ?_, ?_, ?_⟩
        · refine List.nodup_cons.2 ⟨fun hc => ?_, hnodup⟩
          exact (hfresh c hc) (List.mem_cons_self c st.allocated)
        · intro d hd
          rcases List.mem_cons.1 hd with hdc | hdcs
          · subst hdc; exact hnotmem
          · intro hmem
            exact (hfresh d hdcs) (List.mem_cons_of_mem c hmem)
        · rw [hst2]
          simp

/-- Claim C1: `allocate` never returns a duplicate: a successful allocation
returns a name not already in the process-wide allocated set and records it;
if every candidate within the bounded retry count is taken, it fails with
`AllocationExhausted`; and allocating the `n` names of a run yields exactly
`n` pairwise-distinct names, each distinct from every previously allocated
name. -/
theorem allocate_unique (st : AllocatorState) (runId agentIndex n : Nat) :
    (∀ c st1, allocate st runId agentIndex = .ok (c, st1) →
      ¬ c ∈ st.allocated ∧ st1.allocated = c :: st.allocated)
    ∧ ((∀ a, a < maxAttempts → candidateName runId agentIndex a ∈ st.allocated)
        → allocate st runId agentIndex = .error .allocationExhausted)
    ∧ (∀ cs st2, allocateAll st runId n = .ok (cs, st2) →
        cs.length = n ∧ cs.Nodup ∧ ∀ c ∈ cs, ¬ c ∈ st.allocated) := by
  refine ⟨fun c st1 h => allocate_ok st runId agentIndex c st1 h,
    fun hall => ?_, fun cs st2 h => ?_⟩
  · unfold allocate
    rw [allocateGo_exhausted st.allocated runId agentIndex 0 maxAttempts
      (fun a h1 _ => hall a (by omega))]
  · obtain ⟨h1, h2, h3, _⟩ := allocateFrom_ok runId n st 0 cs st2 h
    exact ⟨h1, h2, h3⟩

/-- Witness for C1 at concrete inputs: a fresh allocation for run 7, agent 0
succeeds with a new name; with every candidate for run 7, agent 0 already
taken, allocation fails with `AllocationExhausted`; and allocating the three
names of run 7 from an empty set yields three pairwise-distinct names. -/
theorem allocate_unique_witness :
    (¬ "feature/7/0" ∈ (AllocatorState.mk []).allocated ∧
      (AllocatorState.mk ["feature/7/0"]).allocated =
        "feature/7/0" :: (AllocatorState.mk []).allocated)
    ∧ allocate ⟨(List.range maxAttempts).map (candidateName 7 0)⟩ 7 0 =
        .error .allocationExhausted
    ∧ (["feature/7/0", "feature/7/1", "feature/7/2"].length = 3 ∧
        (["feature/7/0", "feature/7/1", "feature/7/2"] : List String).Nodup ∧
        ∀ c ∈ ["feature/7/0", "feature/7/1", "feature/7/2"],
          ¬ c ∈ (AllocatorState.mk []).allocated) := by
  refine ⟨(allocate_unique ⟨[]⟩ 7 0 3).1 "feature/7/0" ⟨["feature/7/0"]⟩
      (by rfl),
    (allocate_unique ⟨(List.range maxAttempts).map (candidateName 7 0)⟩
        7 0 3).2.1 (fun a ha => ?_),
    (allocate_unique ⟨[]⟩ 7 0 3).2.2
      ["feature/7/0", "feature/7/1", "feature/7/2"]
      ⟨["feature/7/2", "feature/7/1", "feature/7/0"]⟩ (by rfl)⟩
  exact List.mem_map.2 ⟨a, List.mem_range.2 ha, rfl⟩

/-! ## Run Registry data model (spec sections 3 and 4.3) -/

/-- Modelled from the spec: an AgentSlot's status. -/
inductive SlotStatus
  | Pending
  | Starting
  | Running
  | Succeeded
  | Failed
  | Cancelled
deriving DecidableEq, Repr

/-- Modelled from the spec: a Run's overall status. -/
inductive RunStatus
  | Initializing
  | CreatingIssue
  | Spawning
  | Running
  | Completed
  | PartiallyFailed
  | Failed
deriving DecidableEq, Repr

/-- Modelled from the spec: terminal run statuses are
Completed, PartiallyFailed and Failed. -/
def RunStatus.isTerminal : RunStatus → Bool
  | .Completed => true
  | .PartiallyFailed => true
  | .Failed => true
  | _ => false

/-- Modelled from the spec: a feature request
`{directory, description, agentCount}`. -/
structure FeatureRequest where
  directory : String
  description : String
  agentCount : Nat
deriving DecidableEq, Repr

/-- Modelled from the spec: request validation — agentCount in [1,5],
description non-empty, directory non-empty. -/
def validRequest (req : FeatureRequest) : Bool :=
  decide (1 ≤ req.agentCount) && decide (req.agentCount ≤ 5)
    && (req.description != "") && (req.directory != "")

/-- Modelled from the spec: one agent's slot within a run. -/
structure AgentSlot where
  agentIndex : Nat
  branchName : String
  status : SlotStatus
deriving DecidableEq, Repr

/-- Modelled from the spec: a Run record of the Run Registry. -/
structure Run where
  runId : Nat
  request : FeatureRequest
  issueRef : Option Nat
  slots : List AgentSlot
  overallStatus : RunStatus
deriving DecidableEq, Repr

/-- Modelled from the spec: the Registry's recomputation of overallStatus
after a slot update — Completed if all Succeeded, Failed if all Failed,
PartiallyFailed if every slot is Succeeded or Failed with at least one of
each, otherwise the prior running phase. -/
def recomputeOverall (prior : RunStatus) (slots : List AgentSlot) :
    RunStatus :=
  let nS := (slots.filter (fun s => s.status == .Succeeded)).length
  let nF := (slots.filter (fun s => s.status == .Failed)).length
  if nS = slots.length then .Completed
  else if nF = slots.length then .Failed
  else if nS + nF = slots.length then .PartiallyFailed
  else prior

/-- Modelled from the spec: set the status of the slot with the given
agent index. -/
def setSlotStatus (slots : List AgentSlot) (agentIndex : Nat)
    (status : SlotStatus) : List AgentSlot :=
  slots.map (fun s =>
    if s.agentIndex = agentIndex then { s with status := status } else s)

/-- Modelled from the spec: the Registry's synchronized slot update — a
terminal run is never mutated further; otherwise the slot status is set and
overallStatus recomputed. -/
def updateSlotStatus (r : Run) (agentIndex : Nat) (status : SlotStatus) :
    Run :=
  if r.overallStatus.isTerminal then r
  else
    let slots := setSlotStatus r.slots agentIndex status
    { r with slots := slots,
             overallStatus := recomputeOverall r.overallStatus slots }

theorem filter_length_eq_iff {p : AgentSlot → Bool} {l : List AgentSlot} :
    (l.filter p).length = l.length ↔ ∀ a ∈ l, p a = true := by
  constructor
  · intro h
    have hs := (show (l.filter p).Sublist l from List.filter_sublist l).eq_of_length h
    intro a ha
    rw [← hs] at ha
    exact List.of_mem_filter ha
  · intro h
    rw [List.filter_eq_self.2 h]

theorem filter_SF_le (l : List AgentSlot) :
    (l.filter (fun s => s.status == SlotStatus.Succeeded)).length +
      (l.filter (fun s => s.status == SlotStatus.Failed)).length
      ≤ l.length := by
  induction l with
  | nil => simp
  | cons a l ih =>
    by_cases hS : a.status = SlotStatus.Succeeded
    · have hbF : (a.status == SlotStatus.Failed) = false := by simp [hS]
      simp only [List.filter_cons, hbF, Bool.false_eq_true, if_false, List.length_cons]
      by_cases hbS : (a.status == SlotStatus.Succeeded) = true
      · simp only [hbS, if_true, List.length_cons]; omega
      · simp only [Bool.not_eq_true] at hbS
        simp only [hbS, Bool.false_eq_true, if_false]; omega
    · have hbS : (a.status == SlotStatus.Succeeded) = false := by simp [hS]
      simp only [List.filter_cons, hbS, Bool.false_eq_true, if_false, List.length_cons]
      by_cases hbF : (a.status == SlotStatus.Failed) = true
      · simp only [hbF, if_true, List.length_cons]; omega
      · simp only [Bool.not_eq_true] at hbF
        simp only [hbF, Bool.false_eq_true, if_false]; omega

theorem filter_split_length {l : List AgentSlot} :
    ((l.filter (fun s => s.status == SlotStatus.Succeeded)).length +
      (l.filter (fun s => s.status == SlotStatus.Failed)).length = l.length)
    ↔ ∀ a ∈ l, a.status = SlotStatus.Succeeded ∨
        a.status = SlotStatus.Failed := by
  induction l with
  | nil => simp
  | cons a l ih =>
    by_cases hS : a.status = SlotStatus.Succeeded
    · have hbS : (a.status == SlotStatus.Succeeded) = true := by simp [hS]
      have hbF : (a.status == SlotStatus.Failed) = false := by simp [hS]
      simp only [List.filter_cons, hbS, hbF, if_true, Bool.false_eq_true, if_false,
        List.length_cons, List.mem_cons]
      constructor
      · intro h b hb
        rcases hb with rfl | hb
        · exact Or.inl hS
        · exact ih.1 (by omega) b hb
      · intro h
        have := ih.2 (fun b hb => h b (Or.inr hb))
        omega
    · by_cases hF : a.status = SlotStatus.Failed
      · have hbS : (a.status == SlotStatus.Succeeded) = false := by
          simp [hS]
        have hbF : (a.status == SlotStatus.Failed) = true := by simp [hF]
        simp only [List.filter_cons, hbS, hbF, if_true, Bool.false_eq_true, if_false,
          List.length_cons, List.mem_cons]
        constructor
        · intro h b hb
          rcases hb with rfl | hb
          · exact Or.inr hF
          · exact ih.1 (by omega) b hb
        · intro h
          have := ih.2 (fun b hb => h b (Or.inr hb))
          omega
      · have hbS : (a.status == SlotStatus.Succeeded) = false := by
          simp [hS]
        have hbF : (a.status == SlotStatus.Failed) = false := by simp [hF]
        simp only [List.filter_cons, hbS, hbF, Bool.false_eq_true, if_false, List.length_cons,
          List.mem_cons]
        constructor
        · intro h
          have := filter_SF_le l
          omega
        · intro h
          exact absurd (h a (Or.inl rfl)) (by simp [hS, hF])

theorem recomputeOverall_cases (prior : RunStatus) (slots : List AgentSlot)
    (hne : slots ≠ []) :
    ((∀ s ∈ slots, s.status = SlotStatus.Succeeded) →
      recomputeOverall prior slots = RunStatus.Completed)
    ∧ ((∀ s ∈ slots, s.status = SlotStatus.Failed) →
      recomputeOverall prior slots = RunStatus.Failed)
    ∧ ((∃ s ∈ slots, s.status = SlotStatus.Succeeded) →
      (∃ s ∈ slots, s.status = SlotStatus.Failed) →
      (∀ s ∈ slots, s.status = SlotStatus.Succeeded ∨
        s.status = SlotStatus.Failed) →
      recomputeOverall prior slots = RunStatus.PartiallyFailed)
    ∧ ((∃ s ∈ slots, s.status ≠ SlotStatus.Succeeded ∧
        s.status ≠ SlotStatus.Failed) →
      recomputeOverall prior slots = prior) := by
  have hSiff :
      ((slots.filter (fun s => s.status == SlotStatus.Succeeded)).length =
        slots.length) ↔ ∀ s ∈ slots, s.status = SlotStatus.Succeeded := by
    rw [filter_length_eq_iff]
    simp
  have hFiff :
      ((slots.filter (fun s => s.status == SlotStatus.Failed)).length =
        slots.length) ↔ ∀ s ∈ slots, s.status = SlotStatus.Failed := by
    rw [filter_length_eq_iff]
    simp
  refine ⟨?_, ?_, ?_, ?_⟩
  · intro hall
    simp only [recomputeOverall]
    rw [if_pos (hSiff.2 hall)]
  · intro hall
    obtain ⟨a, ha⟩ := List.exists_mem_of_ne_nil slots hne
    have hnS :
        ¬ ((slots.filter (fun s => s.status == SlotStatus.Succeeded)).length
          = slots.length) := by
      intro hs
      have h1 := hSiff.1 hs a ha
      have h2 := hall a ha
      rw [h2] at h1
      exact absurd h1 (by decide)
    simp only [recomputeOverall]
    rw [if_neg hnS, if_pos (hFiff.2 hall)]
  · intro hexS hexF hallSF
    obtain ⟨a, ha, haS⟩ := hexS
    obtain ⟨b, hb, hbF⟩ := hexF
    have hnS :
        ¬ ((slots.filter (fun s => s.status == SlotStatus.Succeeded)).length
          = slots.length) := by
      intro hs
      have h1 := hSiff.1 hs b hb
      rw [hbF] at h1
      exact absurd h1 (by decide)
    have hnF :
        ¬ ((slots.filter (fun s => s.status == SlotStatus.Failed)).length
          = slots.length) := by
      intro hf
      have h1 := hFiff.1 hf a ha
      rw [haS] at h1
      exact absurd h1 (by decide)
    simp only [recomputeOverall]
    rw [if_neg hnS, if_neg hnF, if_pos (filter_split_length.2 hallSF)]
  · intro hex
    obtain ⟨a, ha, haS, haF⟩ := hex
    have hnS :
        ¬ ((slots.filter (fun s => s.status == SlotStatus.Succeeded)).length
          = slots.length) := fun hs => haS (hSiff.1 hs a ha)
    have hnF :
        ¬ ((slots.filter (fun s => s.status == SlotStatus.Failed)).length
          = slots.length) := fun hf => haF (hFiff.1 hf a ha)
    have hnSum :
        ¬ ((slots.filter (fun s => s.status == SlotStatus.Succeeded)).length
          + (slots.filter (fun s => s.status == SlotStatus.Failed)).length
          = slots.length) :=
      fun hsum => (filter_split_length.1 hsum a ha).elim haS haF
    simp only [recomputeOverall]
    rw [if_neg hnS, if_neg hnF, if_neg hnSum]

/-- Claim C2: after a slot-status update on a live run with at least one
slot, the Registry's recomputed overallStatus is Completed if every slot is
Succeeded, Failed if every slot is Failed, PartiallyFailed if the slots mix
Succeeded and Failed with at least one of each, and the prior running phase
otherwise. -/
theorem overallStatus_after_update (r : Run) (agentIndex : Nat)
    (status : SlotStatus)
    (hterm : RunStatus.isTerminal r.overallStatus = false)
    (hne : r.slots ≠ []) :
    ((∀ s ∈ (updateSlotStatus r agentIndex status).slots,
        s.status = SlotStatus.Succeeded) →
      (updateSlotStatus r agentIndex status).overallStatus =
        RunStatus.Completed)
    ∧ ((∀ s ∈ (updateSlotStatus r agentIndex status).slots,
        s.status = SlotStatus.Failed) →
      (updateSlotStatus r agentIndex status).overallStatus =
        RunStatus.Failed)
    ∧ ((∃ s ∈ (updateSlotStatus r agentIndex status).slots,
        s.status = SlotStatus.Succeeded) →
      (∃ s ∈ (updateSlotStatus r agentIndex status).slots,
        s.status = SlotStatus.Failed) →
      (∀ s ∈ (updateSlotStatus r agentIndex status).slots,
        s.status = SlotStatus.Succeeded ∨ s.status = SlotStatus.Failed) →
      (updateSlotStatus r agentIndex status).overallStatus =
        RunStatus.PartiallyFailed)
    ∧ ((∃ s ∈ (updateSlotStatus r agentIndex status).slots,
        s.status ≠ SlotStatus.Succeeded ∧ s.status ≠ SlotStatus.Failed) →
      (updateSlotStatus r agentIndex status).overallStatus =
        r.overallStatus) := by
  have hup : updateSlotStatus r agentIndex status =
      { r with slots := setSlotStatus r.slots agentIndex status,
               overallStatus := recomputeOverall r.overallStatus
                 (setSlotStatus r.slots agentIndex status) } := by
    simp [updateSlotStatus, hterm]
  have hne2 : setSlotStatus r.slots agentIndex status ≠ [] := by
    simp only [setSlotStatus]
    intro hmap
    exact hne (List.map_eq_nil_iff.mp hmap)
  have hc := recomputeOverall_cases r.overallStatus
    (setSlotStatus r.slots agentIndex status) hne2
  rw [hup]
  exact hc

/-- Witness for C2: updating the only Running slot of a one-slot Running run
to Succeeded recomputes overallStatus to Completed. -/
theorem overallStatus_after_update_witness :
    (updateSlotStatus
      ⟨0, ⟨"/repo", "Add dark mode", 1⟩, some 1,
        [⟨0, "feature/0/0", SlotStatus.Running⟩], RunStatus.Running⟩
      0 SlotStatus.Succeeded).overallStatus = RunStatus.Completed :=
  (overallStatus_after_update
    ⟨0, ⟨"/repo", "Add dark mode", 1⟩, some 1,
      [⟨0, "feature/0/0", SlotStatus.Running⟩], RunStatus.Running⟩
    0 SlotStatus.Succeeded rfl (by decide)).1 (by decide)

/-! ## Orchestrator and Event Bus (spec sections 4.4, 4.5, 5 and 6) -/

/-- Modelled from the spec: lifecycle events appended to the per-run
ordered event log. -/
inductive LifecycleEvent
  | StatusUpdate (runId : Nat) (phase : String)
  | Started (runId agentIndex : Nat) (branchName : String)
  | Completed (runId agentIndex : Nat) (success : Bool)
deriving DecidableEq, Repr

/-- Run-level orchestrator errors surfaced synchronously to the caller of
executeFeature. -/
inductive OrchError
  | invalidRequest
  | issueCreationError
  | allocationExhausted
deriving DecidableEq, Repr

/-- Modelled from the spec: the result of executeFeature at the invocation
surface — the run identifier, the allocated branch names, and the run-scoped
slot identifiers. -/
structure ExecResult where
  runId : Nat
  branchNames : List String
  runIds : List Nat
deriving DecidableEq, Repr

/-- Modelled from the spec: the external collaborators' behaviour — the
issue-creation outcome (`none` = failure), the per-agent outcome of
Adapter.start, and the per-agent terminal outcome reported by the terminal
callback. -/
structure Env where
  issueResult : Option Nat
  startResult : Nat → Bool
  runResult : Nat → Bool

/-- Modelled from the spec: the orchestration system's state — the Run
Registry's table, the process-wide allocator set, the event log, the count
of Facade calls made, and the next fresh run identifier. -/
structure SystemState where
  runs : List Run
  allocator : AllocatorState
  events : List LifecycleEvent
  facadeCalls : Nat
  nextRunId : Nat

/-- Modelled from the spec: register the run's Pending slots, one per
branch name, with ascending agent indices starting at `i`. -/
def makeSlots (i : Nat) : List String → List AgentSlot
  | [] => []
  | c :: cs => ⟨i, c, .Pending⟩ :: makeSlots (i + 1) cs

/-- Modelled from the spec: issue the Adapter.start launches for the
registered slots. A slot whose launch succeeds becomes Running and a
Started event is emitted (Started events keep ascending agentIndex order,
the spec's sort key); a launch failure marks only that slot Failed, emits
no Started event, and sibling launches proceed. -/
def launchSlots (env : Env) (runId : Nat) :
    List AgentSlot → List AgentSlot × List LifecycleEvent
  | [] => ([], [])
  | s :: rest =>
    let r := launchSlots env runId rest
    if env.startResult s.agentIndex then
      ({ s with status := .Running } :: r.1,
       .Started runId s.agentIndex s.branchName :: r.2)
    else
      ({ s with status := .Failed } :: r.1, r.2)

/-- Modelled from the spec: `executeFeature(request)`. Validation failure
short-circuits with InvalidRequest and no side effect. Otherwise the
tracking issue is created through the Facade (one Facade call, with a
StatusUpdate event per phase); on issue-creation failure the run is
recorded as Failed with no slots and no agent launched. Otherwise the N
branch names are allocated as a set (all-or-nothing: allocation failure
aborts the run with no slots registered), the N slots registered, the
launches issued, and the call returns with the run identifier, the branch
names and the run-scoped slot identifiers without waiting for any agent to
complete. -/
def executeFeature (st : SystemState) (env : Env) (req : FeatureRequest) :
    Except OrchError ExecResult × SystemState :=
  if validRequest req then
    let rid := st.nextRunId
    match env.issueResult with
    | none =>
      (.error .issueCreationError,
       { runs := ⟨rid, req, none, [], .Failed⟩ :: st.runs,
         allocator := st.allocator,
         events := st.events ++ [.StatusUpdate rid "creating_issue"],
         facadeCalls := st.facadeCalls + 1,
         nextRunId := rid + 1 })
    | some issueId =>
      match allocateAll st.allocator rid req.agentCount with
      | .error _ =>
        (.error .allocationExhausted,
         { runs := ⟨rid, req, some issueId, [], .Failed⟩ :: st.runs,
           allocator := st.allocator,
           events := st.events ++ [.StatusUpdate rid "creating_issue",
             .StatusUpdate rid "issue_created"],
           facadeCalls := st.facadeCalls + 1,
           nextRunId := rid + 1 })
      | .ok (names, alloc1) =>
        let launched := launchSlots env rid (makeSlots 0 names)
        (.ok ⟨rid, names,
           (List.range req.agentCount).map (fun i => rid * 5 + i)⟩,
         { runs := ⟨rid, req, some issueId, launched.1,
             recomputeOverall .Running launched.1⟩ :: st.runs,
           allocator := alloc1,
           events := st.events ++ .StatusUpdate rid "creating_issue" ::
             .StatusUpdate rid "issue_created" :: launched.2,
           facadeCalls := st.facadeCalls + 1,
           nextRunId := rid + 1 })
  else
    (.error .invalidRequest, st)

/-- Modelled from the spec: look up a run's slot by agent index. -/
def findSlot (r : Run) (agentIndex : Nat) : Option AgentSlot :=
  r.slots.find? (fun s => s.agentIndex == agentIndex)

/-- Modelled from the spec: one agent's terminal callback for slot
`agentIndex`: if that slot is still Running, the Registry's synchronized
update records Succeeded or Failed per the agent's outcome and a Completed
event is appended to the per-run log. -/
def applyCompletion (env : Env) (p : Run × List LifecycleEvent)
    (agentIndex : Nat) : Run × List LifecycleEvent :=
  match findSlot p.1 agentIndex with
  | some s =>
    if s.status == SlotStatus.Running then
      (updateSlotStatus p.1 agentIndex
        (if env.runResult agentIndex then .Succeeded else .Failed),
       p.2 ++ [.Completed p.1.runId agentIndex (env.runResult agentIndex)])
    else p
  | none => p

/-- Modelled from the spec: deliver the agents' terminal callbacks in the
interleaving order `sched`. -/
def applyCompletions (env : Env) (sched : List Nat)
    (p : Run × List LifecycleEvent) : Run × List LifecycleEvent :=
  sched.foldl (applyCompletion env) p

/-- Modelled from the spec: a full run — executeFeature followed by the
agents' terminal callbacks in the interleaving order `sched`. -/
def runFeature (st : SystemState) (env : Env) (req : FeatureRequest)
    (sched : List Nat) : Except OrchError ExecResult × SystemState :=
  let r0 := executeFeature st env req
  match r0.1, r0.2.runs with
  | .ok res, run :: rest =>
    let p := applyCompletions env sched (run, r0.2.events)
    (.ok res, { r0.2 with runs := p.1 :: rest, events := p.2 })
  | _, _ => r0

theorem bool_false_of_not {b : Bool} (h : ¬ b = true) : b = false := by
  cases b
  · rfl
  · exact absurd rfl h

theorem makeSlots_length : ∀ (names : List String) (i : Nat),
    (makeSlots i names).length = names.length := by
  intro names
  induction names with
  | nil => intro i; rfl
  | cons c cs ih => intro i; simp [makeSlots, ih]

theorem launchSlots_fst (env : Env) (runId : Nat) :
    ∀ slots, (launchSlots env runId slots).1 = slots.map (fun s =>
      if env.startResult s.agentIndex then
        { s with status := SlotStatus.Running }
      else { s with status := SlotStatus.Failed }) := by
  intro slots
  induction slots with
  | nil => rfl
  | cons s rest ih =>
    by_cases h : env.startResult s.agentIndex = true
    · simp [launchSlots, h, ih]
    · simp [launchSlots, bool_false_of_not h, ih]

theorem launchSlots_snd_mem (env : Env) (runId : Nat) :
    ∀ slots (s : AgentSlot), s ∈ slots →
      env.startResult s.agentIndex = true →
      LifecycleEvent.Started runId s.agentIndex s.branchName ∈
        (launchSlots env runId slots).2 := by
  intro slots
  induction slots with
  | nil => intro s hs; cases hs
  | cons a rest ih =>
    intro s hs hstart
    rcases List.mem_cons.1 hs with rfl | hs2
    · simp [launchSlots, hstart]
    · by_cases h : env.startResult a.agentIndex = true
      · simp only [launchSlots, h, if_true]
        exact List.mem_cons_of_mem _ (ih s hs2 hstart)
      · simp only [launchSlots, bool_false_of_not h, Bool.false_eq_true,
          if_false]
        exact ih s hs2 hstart

theorem launchSlots_snd_shape (env : Env) (runId : Nat) :
    ∀ slots e, e ∈ (launchSlots env runId slots).2 →
      ∃ s, s ∈ slots ∧ env.startResult s.agentIndex = true ∧
        e = LifecycleEvent.Started runId s.agentIndex s.branchName := by
  intro slots
  induction slots with
  | nil => intro e he; simp [launchSlots] at he
  | cons a rest ih =>
    intro e he
    by_cases h : env.startResult a.agentIndex = true
    · simp only [launchSlots, h, if_true] at he
      rcases List.mem_cons.1 he with rfl | he2
      · exact ⟨a, List.mem_cons_self a rest, h, rfl⟩
      · obtain ⟨s, hs, h1, h2⟩ := ih e he2
        exact ⟨s, List.mem_cons_of_mem a hs, h1, h2⟩
    · simp only [launchSlots, bool_false_of_not h, Bool.false_eq_true,
        if_false] at he
      obtain ⟨s, hs, h1, h2⟩ := ih e he
      exact ⟨s, List.mem_cons_of_mem a hs, h1, h2⟩

theorem makeSlots_branchNames : ∀ (names : List String) (i : Nat),
    (makeSlots i names).map (fun s => s.branchName) = names := by
  intro names
  induction names with
  | nil => intro i; rfl
  | cons c cs ih => intro i; simp [makeSlots, ih]

theorem launchSlots_branchNames (env : Env) (runId : Nat)
    (slots : List AgentSlot) :
    (launchSlots env runId slots).1.map (fun s => s.branchName) =
      slots.map (fun s => s.branchName) := by
  rw [launchSlots_fst, List.map_map]
  apply List.map_congr_left
  intro s hs
  by_cases h : env.startResult s.agentIndex = true
  · simp [Function.comp, h]
  · simp [Function.comp, bool_false_of_not h]

/-- Claim C4: a request with agentCount outside [1,5], or an empty
description, or an empty directory, fails with InvalidRequest and has no
side effect whatsoever: the state is returned unchanged — zero Registry
entries, zero Facade calls, no issue-creation events, no agents spawned. -/
theorem invalid_request_no_side_effects (st : SystemState) (env : Env)
    (req : FeatureRequest) (hv : validRequest req = false) :
    executeFeature st env req = (.error .invalidRequest, st) := by
  simp [executeFeature, hv]

/-- Witness for C4: a concrete request with agentCount 0 fails with
InvalidRequest and leaves the initial state untouched. -/
theorem invalid_request_no_side_effects_witness :
    executeFeature ⟨[], ⟨[]⟩, [], 0, 0⟩
      ⟨some 1, fun _ => true, fun _ => true⟩
      ⟨"/repo", "Add dark mode", 0⟩ =
      (.error .invalidRequest, ⟨[], ⟨[]⟩, [], 0, 0⟩) :=
  invalid_request_no_side_effects ⟨[], ⟨[]⟩, [], 0, 0⟩
    ⟨some 1, fun _ => true, fun _ => true⟩
    ⟨"/repo", "Add dark mode", 0⟩ (by rfl)

/-- Claim C5: if issue creation fails, executeFeature fails with
IssueCreationError, the run is recorded terminal Failed with zero slots,
and zero agents are launched — every Started event in the resulting log was
already present before the call, so no agent is ever started without the
tracking issue having been created. -/
theorem issue_failure_no_agents (st : SystemState) (env : Env)
    (req : FeatureRequest) (hv : validRequest req = true)
    (hi : env.issueResult = none) :
    executeFeature st env req =
      (.error .issueCreationError,
       { runs := ⟨st.nextRunId, req, none, [], .Failed⟩ :: st.runs,
         allocator := st.allocator,
         events := st.events ++
           [.StatusUpdate st.nextRunId "creating_issue"],
         facadeCalls := st.facadeCalls + 1,
         nextRunId := st.nextRunId + 1 })
    ∧ ∀ rid i c,
        LifecycleEvent.Started rid i c ∈ (executeFeature st env req).2.events
        → LifecycleEvent.Started rid i c ∈ st.events := by
  have heq : executeFeature st env req =
      (.error .issueCreationError,
       { runs := ⟨st.nextRunId, req, none, [], .Failed⟩ :: st.runs,
         allocator := st.allocator,
         events := st.events ++
           [.StatusUpdate st.nextRunId "creating_issue"],
         facadeCalls := st.facadeCalls + 1,
         nextRunId := st.nextRunId + 1 }) := by
    simp [executeFeature, hv, hi]
  refine ⟨heq, ?_⟩
  intro rid i c hm
  rw [heq] at hm
  simp only [List.mem_append, List.mem_singleton] at hm
  rcases hm with hm | hm
  · exact hm
  · simp at hm

/-- Witness for C5: with a concrete failing issue-creation collaborator,
executeFeature fails with IssueCreationError, records the Failed run with
no slots, and launches no agent. -/
theorem issue_failure_no_agents_witness :
    executeFeature ⟨[], ⟨[]⟩, [], 0, 0⟩
      ⟨none, fun _ => true, fun _ => true⟩
      ⟨"/repo", "Add dark mode", 3⟩ =
      (.error .issueCreationError,
       { runs := [⟨0, ⟨"/repo", "Add dark mode", 3⟩, none, [], .Failed⟩],
         allocator := ⟨[]⟩,
         events := [.StatusUpdate 0 "creating_issue"],
         facadeCalls := 1,
         nextRunId := 1 }) :=
  (issue_failure_no_agents ⟨[], ⟨[]⟩, [], 0, 0⟩
    ⟨none, fun _ => true, fun _ => true⟩
    ⟨"/repo", "Add dark mode", 3⟩ (by rfl) rfl).1

theorem executeFeature_allocFail_eq (st : SystemState) (env : Env)
    (req : FeatureRequest) (k : Nat) (e0 : AllocError)
    (hv : validRequest req = true) (hi : env.issueResult = some k)
    (halloc : allocateAll st.allocator st.nextRunId req.agentCount =
      .error e0) :
    executeFeature st env req =
      (.error .allocationExhausted,
       { runs := ⟨st.nextRunId, req, some k, [], .Failed⟩ :: st.runs,
         allocator := st.allocator,
         events := st.events ++
           [.StatusUpdate st.nextRunId "creating_issue",
            .StatusUpdate st.nextRunId "issue_created"],
         facadeCalls := st.facadeCalls + 1,
         nextRunId := st.nextRunId + 1 }) := by
  simp [executeFeature, hv, hi, halloc]

theorem executeFeature_ok_eq (st : SystemState) (env : Env)
    (req : FeatureRequest) (k : Nat) (names : List String)
    (alloc1 : AllocatorState)
    (hv : validRequest req = true) (hi : env.issueResult = some k)
    (halloc : allocateAll st.allocator st.nextRunId req.agentCount =
      .ok (names, alloc1)) :
    executeFeature st env req =
      (.ok ⟨st.nextRunId, names,
         (List.range req.agentCount).map (fun i => st.nextRunId * 5 + i)⟩,
       { runs := ⟨st.nextRunId, req, some k,
           (launchSlots env st.nextRunId (makeSlots 0 names)).1,
           recomputeOverall .Running
             (launchSlots env st.nextRunId (makeSlots 0 names)).1⟩ ::
           st.runs,
         allocator := alloc1,
         events := st.events ++
           .StatusUpdate st.nextRunId "creating_issue" ::
           .StatusUpdate st.nextRunId "issue_created" ::
           (launchSlots env st.nextRunId (makeSlots 0 names)).2,
         facadeCalls := st.facadeCalls + 1,
         nextRunId := st.nextRunId + 1 }) := by
  simp [executeFeature, hv, hi, halloc]

theorem executeFeature_issueFail_eq (st : SystemState) (env : Env)
    (req : FeatureRequest)
    (hv : validRequest req = true) (hi : env.issueResult = none) :
    executeFeature st env req =
      (.error .issueCreationError,
       { runs := ⟨st.nextRunId, req, none, [], .Failed⟩ :: st.runs,
         allocator := st.allocator,
         events := st.events ++
           [.StatusUpdate st.nextRunId "creating_issue"],
         facadeCalls := st.facadeCalls + 1,
         nextRunId := st.nextRunId + 1 }) := by
  simp [executeFeature, hv, hi]

/-- Claim C3: slot registration is all-or-nothing: either executeFeature
succeeds and the single new run holds exactly agentCount slots, or it fails
and the run is aborted before any agent is launched — no slot registered
and no Started event appended by the call. -/
theorem slots_all_or_nothing (st : SystemState) (env : Env)
    (req : FeatureRequest) :
    (∀ res, (executeFeature st env req).1 = .ok res →
      ∃ run, (executeFeature st env req).2.runs = run :: st.runs ∧
        run.slots.length = req.agentCount)
    ∧ (∀ e, (executeFeature st env req).1 = .error e →
      ((executeFeature st env req).2.runs = st.runs ∨
        ∃ run, (executeFeature st env req).2.runs = run :: st.runs ∧
          run.slots = []) ∧
      ∀ ev ∈ ((executeFeature st env req).2.events).drop st.events.length,
        ∀ rid i c, ev ≠ LifecycleEvent.Started rid i c) := by
  by_cases hv : validRequest req = true
  · cases hi : env.issueResult with
    | none =>
      have heq := executeFeature_issueFail_eq st env req hv hi
      constructor
      · intro res h
        rw [heq] at h
        simp at h
      · intro e h
        rw [heq]
        refine ⟨Or.inr ⟨⟨st.nextRunId, req, none, [], .Failed⟩, rfl, rfl⟩,
          ?_⟩
        intro ev hev rid i c
        simp only [List.drop_left, List.mem_singleton] at hev
        subst hev
        simp
    | some k =>
      cases halloc : allocateAll st.allocator st.nextRunId req.agentCount
        with
      | error e0 =>
        have heq := executeFeature_allocFail_eq st env req k e0 hv hi halloc
        constructor
        · intro res h
          rw [heq] at h
          simp at h
        · intro e h
          rw [heq]
          refine ⟨Or.inr ⟨⟨st.nextRunId, req, some k, [], .Failed⟩, rfl,
            rfl⟩, ?_⟩
          intro ev hev rid i c
          simp only [List.drop_left, List.mem_cons, List.mem_singleton,
            List.not_mem_nil, or_false] at hev
          rcases hev with rfl | rfl
          · simp
          · simp
      | ok p =>
        obtain ⟨names, alloc1⟩ := p
        have hlen : names.length = req.agentCount :=
          (allocateFrom_ok st.nextRunId req.agentCount st.allocator 0
            names alloc1 halloc).1
        have heq := executeFeature_ok_eq st env req k names alloc1 hv hi
          halloc
        constructor
        · intro res h
          refine ⟨_, by rw [heq], ?_⟩
          simp only []
          rw [launchSlots_fst, List.length_map, makeSlots_length, hlen]
        · intro e h
          rw [heq] at h
          simp at h
  · have heq : executeFeature st env req = (.error .invalidRequest, st) :=
      by simp [executeFeature, bool_false_of_not hv]
    constructor
    · intro res h
      rw [heq] at h
      simp at h
    · intro e h
      rw [heq]
      refine ⟨Or.inl rfl, ?_⟩
      intro ev hev rid i c
      simp only [List.drop_length, List.not_mem_nil] at hev

/-- Witness for C3: a concrete successful three-agent request registers a
run with exactly three slots. -/
theorem slots_all_or_nothing_witness :
    ∃ run,
      (executeFeature ⟨[], ⟨[]⟩, [], 0, 0⟩
        ⟨some 1, fun _ => true, fun _ => true⟩
        ⟨"/repo", "Add dark mode", 3⟩).2.runs =
        run :: ([] : List Run) ∧ run.slots.length = 3 :=
  (slots_all_or_nothing ⟨[], ⟨[]⟩, [], 0, 0⟩
    ⟨some 1, fun _ => true, fun _ => true⟩
    ⟨"/repo", "Add dark mode", 3⟩).1
    ⟨0, ["feature/0/0", "feature/0/1", "feature/0/2"], [0, 1, 2]⟩ (by rfl)

theorem launchSlots_congr (env env2 : Env) (runId : Nat)
    (h : env.startResult = env2.startResult) :
    ∀ slots, launchSlots env runId slots = launchSlots env2 runId slots := by
  intro slots
  induction slots with
  | nil => rfl
  | cons s rest ih => simp [launchSlots, h, ih]

/-- Claim C9: executeFeature returns synchronously once slots are registered
and launches are issued: its entire outcome is independent of the agents'
terminal results (completion is observable only through the event bus); on
success the result carries the run identifier, the agentCount allocated
branch names (exactly the registered slots' branch names) and the
agentCount run-scoped slot identifiers; and at return no agent has
completed — no slot is Succeeded and the call appends no Completed event. -/
theorem executeFeature_synchronous (st : SystemState) (env env2 : Env)
    (req : FeatureRequest)
    (hissue : env.issueResult = env2.issueResult)
    (hstart : env.startResult = env2.startResult) :
    executeFeature st env req = executeFeature st env2 req
    ∧ (∀ res, (executeFeature st env req).1 = .ok res →
        res.runId = st.nextRunId ∧
        res.branchNames.length = req.agentCount ∧
        res.runIds.length = req.agentCount ∧
        ∃ run, (executeFeature st env req).2.runs = run :: st.runs ∧
          run.slots.map (fun s => s.branchName) = res.branchNames ∧
          ∀ s ∈ run.slots, s.status ≠ SlotStatus.Succeeded)
    ∧ (∀ ev ∈ (executeFeature st env req).2.events.drop st.events.length,
        ∀ rid i b, ev ≠ LifecycleEvent.Completed rid i b) := by
  refine ⟨?_, ?_, ?_⟩
  · by_cases hv : validRequest req = true
    · cases hi : env.issueResult with
      | none =>
        have hi2 : env2.issueResult = none := by rw [← hissue]; exact hi
        rw [executeFeature_issueFail_eq st env req hv hi,
          executeFeature_issueFail_eq st env2 req hv hi2]
      | some k =>
        have hi2 : env2.issueResult = some k := by rw [← hissue]; exact hi
        cases halloc : allocateAll st.allocator st.nextRunId req.agentCount
          with
        | error e0 =>
          rw [executeFeature_allocFail_eq st env req k e0 hv hi halloc,
            executeFeature_allocFail_eq st env2 req k e0 hv hi2 halloc]
        | ok p =>
          obtain ⟨names, alloc1⟩ := p
          rw [executeFeature_ok_eq st env req k names alloc1 hv hi halloc,
            executeFeature_ok_eq st env2 req k names alloc1 hv hi2 halloc,
            launchSlots_congr env env2 st.nextRunId hstart]
    · simp [executeFeature, bool_false_of_not hv]
  · intro res h
    by_cases hv : validRequest req = true
    · cases hi : env.issueResult with
      | none =>
        rw [executeFeature_issueFail_eq st env req hv hi] at h
        simp at h
      | some k =>
        cases halloc : allocateAll st.allocator st.nextRunId req.agentCount
          with
        | error e0 =>
          rw [executeFeature_allocFail_eq st env req k e0 hv hi halloc] at h
          simp at h
        | ok p =>
          obtain ⟨names, alloc1⟩ := p
          have hlen : names.length = req.agentCount :=
            (allocateFrom_ok st.nextRunId req.agentCount st.allocator 0
              names alloc1 halloc).1
          have heq := executeFeature_ok_eq st env req k names alloc1 hv hi
            halloc
          rw [heq] at h
          simp only [] at h
          cases h
          refine ⟨rfl, hlen, by simp, ?_⟩
          refine ⟨_, by rw [heq], ?_, ?_⟩
          · simp only []
            rw [launchSlots_branchNames, makeSlots_branchNames]
          · intro s hs
            simp only [] at hs
            rw [launchSlots_fst] at hs
            obtain ⟨s0, hs0, rfl⟩ := List.mem_map.1 hs
            by_cases hb : env.startResult s0.agentIndex = true
            · simp [hb]
            · simp [bool_false_of_not hb]
    · have heq : executeFeature st env req = (.error .invalidRequest, st) :=
        by simp [executeFeature, bool_false_of_not hv]
      rw [heq] at h
      simp at h
  · intro ev hev rid i b
    by_cases hv : validRequest req = true
    · cases hi : env.issueResult with
      | none =>
        rw [executeFeature_issueFail_eq st env req hv hi] at hev
        simp only [List.drop_left, List.mem_singleton] at hev
        subst hev
        simp
      | some k =>
        cases halloc : allocateAll st.allocator st.nextRunId req.agentCount
          with
        | error e0 =>
          rw [executeFeature_allocFail_eq st env req k e0 hv hi halloc]
            at hev
          simp only [List.drop_left, List.mem_cons, List.mem_singleton,
            List.not_mem_nil, or_false] at hev
          rcases hev with rfl | rfl
          · simp
          · simp
        | ok p =>
          obtain ⟨names, alloc1⟩ := p
          rw [executeFeature_ok_eq st env req k names alloc1 hv hi halloc]
            at hev
          simp only [List.drop_left, List.mem_cons] at hev
          rcases hev with rfl | rfl | hev
          · simp
          · simp
          · obtain ⟨s, _, _, rfl⟩ :=
              launchSlots_snd_shape env st.nextRunId _ ev hev
            simp
    · have heq : executeFeature st env req = (.error .invalidRequest, st) :=
        by simp [executeFeature, bool_false_of_not hv]
      rw [heq] at hev
      simp only [List.drop_length, List.not_mem_nil] at hev

/-- Witness for C9: the outcome of a concrete three-agent executeFeature is
unchanged when every agent's terminal result is flipped from success to
failure. -/
theorem executeFeature_synchronous_witness :
    executeFeature ⟨[], ⟨[]⟩, [], 0, 0⟩
      ⟨some 1, fun _ => true, fun _ => true⟩
      ⟨"/repo", "Add dark mode", 3⟩ =
    executeFeature ⟨[], ⟨[]⟩, [], 0, 0⟩
      ⟨some 1, fun _ => true, fun _ => false⟩
      ⟨"/repo", "Add dark mode", 3⟩ :=
  (executeFeature_synchronous ⟨[], ⟨[]⟩, [], 0, 0⟩
    ⟨some 1, fun _ => true, fun _ => true⟩
    ⟨some 1, fun _ => true, fun _ => false⟩
    ⟨"/repo", "Add dark mode", 3⟩ rfl rfl).1

/-- Claim C6: slot-level launch failures never abort sibling slots or the
run: in the registered run a slot whose Adapter.start failed is Failed
while every successfully launched sibling is Running with its Started event
emitted; and in the concrete three-agent scenario where exactly agent 1's
launch fails and the other two succeed, the run's terminal state is
PartiallyFailed with slot 1 Failed and slots 0 and 2 Succeeded. -/
theorem slot_failure_isolated (st : SystemState) (env : Env)
    (req : FeatureRequest) (k : Nat) (names : List String)
    (alloc1 : AllocatorState)
    (hv : validRequest req = true) (hi : env.issueResult = some k)
    (halloc : allocateAll st.allocator st.nextRunId req.agentCount =
      .ok (names, alloc1)) :
    (∃ run, (executeFeature st env req).2.runs = run :: st.runs ∧
      (∀ s ∈ run.slots, env.startResult s.agentIndex = false →
        s.status = SlotStatus.Failed) ∧
      (∀ s ∈ run.slots, env.startResult s.agentIndex = true →
        s.status = SlotStatus.Running ∧
        LifecycleEvent.Started run.runId s.agentIndex s.branchName ∈
          (executeFeature st env req).2.events))
    ∧ (runFeature ⟨[], ⟨[]⟩, [], 0, 0⟩
        ⟨some 1, fun i => !(i == 1), fun _ => true⟩
        ⟨"/repo", "Add dark mode", 3⟩ [0, 1, 2]).2.runs =
      [⟨0, ⟨"/repo", "Add dark mode", 3⟩, some 1,
        [⟨0, "feature/0/0", SlotStatus.Succeeded⟩,
         ⟨1, "feature/0/1", SlotStatus.Failed⟩,
         ⟨2, "feature/0/2", SlotStatus.Succeeded⟩],
        RunStatus.PartiallyFailed⟩] := by
  have heq := executeFeature_ok_eq st env req k names alloc1 hv hi halloc
  refine ⟨⟨_, by rw [heq], ?_, ?_⟩, ?_⟩
  · intro s hs hfail
    simp only [] at hs
    rw [launchSlots_fst] at hs
    obtain ⟨s0, hs0, rfl⟩ := List.mem_map.1 hs
    by_cases hb : env.startResult s0.agentIndex = true
    · simp [hb] at hfail
    · simp [bool_false_of_not hb]
  · intro s hs hstart
    simp only [] at hs
    rw [launchSlots_fst] at hs
    obtain ⟨s0, hs0, rfl⟩ := List.mem_map.1 hs
    by_cases hb : env.startResult s0.agentIndex = true
    · refine ⟨by simp [hb], ?_⟩
      rw [heq]
      have hmem := launchSlots_snd_mem env st.nextRunId (makeSlots 0 names)
        s0 hs0 hb
      simp only [hb, if_true]
      refine List.mem_append.2 (Or.inr ?_)
      exact List.mem_cons_of_mem _ (List.mem_cons_of_mem _ hmem)
    · simp [bool_false_of_not hb] at hstart
  · rfl

/-- Witness for C6 at concrete inputs: the general part instantiated on the
three-agent run in which only agent 1's launch fails. -/
theorem slot_failure_isolated_witness :
    ∃ run,
      (executeFeature ⟨[], ⟨[]⟩, [], 0, 0⟩
        ⟨some 1, fun i => !(i == 1), fun _ => true⟩
        ⟨"/repo", "Add dark mode", 3⟩).2.runs = run :: ([] : List Run) ∧
      (∀ s ∈ run.slots,
        (fun i => !(i == 1)) s.agentIndex = false →
        s.status = SlotStatus.Failed) ∧
      (∀ s ∈ run.slots,
        (fun i => !(i == 1)) s.agentIndex = true →
        s.status = SlotStatus.Running ∧
        LifecycleEvent.Started run.runId s.agentIndex s.branchName ∈
          (executeFeature ⟨[], ⟨[]⟩, [], 0, 0⟩
            ⟨some 1, fun i => !(i == 1), fun _ => true⟩
            ⟨"/repo", "Add dark mode", 3⟩).2.events) :=
  (slot_failure_isolated ⟨[], ⟨[]⟩, [], 0, 0⟩
    ⟨some 1, fun i => !(i == 1), fun _ => true⟩
    ⟨"/repo", "Add dark mode", 3⟩ 1
    ["feature/0/0", "feature/0/1", "feature/0/2"]
    ⟨["feature/0/2", "feature/0/1", "feature/0/0"]⟩
    rfl rfl (by rfl)).1

/-- Modelled from the spec: position of a run status along the forward
state machine Initializing → CreatingIssue → Spawning → Running →
{Completed, PartiallyFailed, Failed}. -/
def runStatusRank : RunStatus → Nat
  | .Initializing => 0
  | .CreatingIssue => 1
  | .Spawning => 2
  | .Running => 3
  | .Completed => 4
  | .PartiallyFailed => 4
  | .Failed => 4

theorem runStatusRank_le_four (s : RunStatus) : runStatusRank s ≤ 4 := by
  cases s <;> simp [runStatusRank]

theorem rank_le_recompute (prior : RunStatus) (slots : List AgentSlot) :
    runStatusRank prior ≤ runStatusRank (recomputeOverall prior slots) := by
  simp only [recomputeOverall]
  split
  · exact runStatusRank_le_four prior
  · split
    · exact runStatusRank_le_four prior
    · split
      · exact runStatusRank_le_four prior
      · exact le_refl _

theorem updateSlot_rank (r : Run) (agentIndex : Nat) (status : SlotStatus) :
    runStatusRank r.overallStatus ≤
      runStatusRank (updateSlotStatus r agentIndex status).overallStatus :=
  by
  cases hb : RunStatus.isTerminal r.overallStatus with
  | true => simp [updateSlotStatus, hb]
  | false =>
    simp only [updateSlotStatus, hb, Bool.false_eq_true, if_false]
    exact rank_le_recompute r.overallStatus _

theorem updateSlot_frozen (r : Run) (agentIndex : Nat) (status : SlotStatus)
    (h : RunStatus.isTerminal r.overallStatus = true) :
    updateSlotStatus r agentIndex status = r := by
  simp [updateSlotStatus, h]

theorem applyCompletion_rank (env : Env) (p : Run × List LifecycleEvent)
    (i : Nat) :
    runStatusRank p.1.overallStatus ≤
      runStatusRank (applyCompletion env p i).1.overallStatus
    ∧ (RunStatus.isTerminal p.1.overallStatus = true →
        (applyCompletion env p i).1 = p.1) := by
  unfold applyCompletion
  cases hf : findSlot p.1 i with
  | none => exact ⟨le_refl _, fun _ => rfl⟩
  | some s =>
    by_cases hs : (s.status == SlotStatus.Running) = true
    · simp only [hs, if_true]
      exact ⟨updateSlot_rank p.1 i _, fun ht => updateSlot_frozen p.1 i _ ht⟩
    · simp only [bool_false_of_not hs, Bool.false_eq_true, if_false]
      exact ⟨le_refl _, fun _ => trivial⟩

theorem applyCompletions_rank (env : Env) (sched : List Nat) :
    ∀ p : Run × List LifecycleEvent,
      runStatusRank p.1.overallStatus ≤
        runStatusRank (applyCompletions env sched p).1.overallStatus
      ∧ (RunStatus.isTerminal p.1.overallStatus = true →
          (applyCompletions env sched p).1 = p.1) := by
  induction sched with
  | nil => intro p; exact ⟨le_refl _, fun _ => rfl⟩
  | cons i sched ih =>
    intro p
    have hstep := applyCompletion_rank env p i
    have hrest := ih (applyCompletion env p i)
    constructor
    · exact le_trans hstep.1 hrest.1
    · intro ht
      have h1 := hstep.2 ht
      have h2 := hrest.2 (by rw [h1]; exact ht)
      show (applyCompletions env sched (applyCompletion env p i)).1 = p.1
      rw [h2, h1]

/-- Claim C8: a Run's overallStatus only moves forward along
Initializing → CreatingIssue → Spawning → Running → terminal: the
Registry's slot update never decreases the status' position in that chain,
and once the run is terminal no further mutation occurs — the slot update
and every interleaving of terminal callbacks leave the run unchanged. -/
theorem status_forward_only (r : Run) (agentIndex : Nat)
    (status : SlotStatus) (env : Env) (sched : List Nat)
    (evs : List LifecycleEvent) :
    (runStatusRank r.overallStatus ≤
      runStatusRank (updateSlotStatus r agentIndex status).overallStatus)
    ∧ (RunStatus.isTerminal r.overallStatus = true →
        updateSlotStatus r agentIndex status = r)
    ∧ (runStatusRank r.overallStatus ≤
        runStatusRank
          (applyCompletions env sched (r, evs)).1.overallStatus)
    ∧ (RunStatus.isTerminal r.overallStatus = true →
        (applyCompletions env sched (r, evs)).1 = r) :=
  ⟨updateSlot_rank r agentIndex status,
   updateSlot_frozen r agentIndex status,
   (applyCompletions_rank env sched (r, evs)).1,
   (applyCompletions_rank env sched (r, evs)).2⟩

/-- Witness for C8: a terminal (Failed) run is left unchanged by a further
slot update. -/
theorem status_forward_only_witness :
    updateSlotStatus
      ⟨0, ⟨"/repo", "Add dark mode", 1⟩, some 1,
        [⟨0, "feature/0/0", SlotStatus.Failed⟩], RunStatus.Failed⟩
      0 SlotStatus.Succeeded =
      ⟨0, ⟨"/repo", "Add dark mode", 1⟩, some 1,
        [⟨0, "feature/0/0", SlotStatus.Failed⟩], RunStatus.Failed⟩ :=
  (status_forward_only
    ⟨0, ⟨"/repo", "Add dark mode", 1⟩, some 1,
      [⟨0, "feature/0/0", SlotStatus.Failed⟩], RunStatus.Failed⟩
    0 SlotStatus.Succeeded ⟨some 1, fun _ => true, fun _ => true⟩
    [0] []).2.1 rfl

/-- The agent index carried by a Started event, if any. -/
def startedIdx : LifecycleEvent → Option Nat
  | .Started _ i _ => some i
  | _ => none

theorem applyCompletions_cons (env : Env) (j : Nat) (sched : List Nat)
    (p : Run × List LifecycleEvent) :
    applyCompletions env (j :: sched) p =
      applyCompletions env sched (applyCompletion env p j) := rfl

theorem updateSlot_runId (r : Run) (agentIndex : Nat)
    (status : SlotStatus) :
    (updateSlotStatus r agentIndex status).runId = r.runId := by
  unfold updateSlotStatus
  split
  · rfl
  · rfl

theorem launch_make_ascending (env : Env) (runId : Nat) :
    ∀ (names : List String) (i : Nat),
      (∀ x ∈ (launchSlots env runId (makeSlots i names)).2.filterMap
        startedIdx, i ≤ x)
      ∧ List.Chain' (· < ·)
          ((launchSlots env runId (makeSlots i names)).2.filterMap
            startedIdx) := by
  intro names
  induction names with
  | nil =>
    intro i
    constructor
    · intro x hx
      simp [makeSlots, launchSlots] at hx
    · simp [makeSlots, launchSlots]
  | cons c cs ih =>
    intro i
    obtain ⟨iha, ihc⟩ := ih (i + 1)
    by_cases h : env.startResult i = true
    · have hfm : (launchSlots env runId (makeSlots i (c :: cs))).2 =
          LifecycleEvent.Started runId i c ::
            (launchSlots env runId (makeSlots (i + 1) cs)).2 := by
        simp [makeSlots, launchSlots, h]
      rw [hfm]
      have hfm2 : (LifecycleEvent.Started runId i c ::
          (launchSlots env runId (makeSlots (i + 1) cs)).2).filterMap
            startedIdx =
          i :: ((launchSlots env runId (makeSlots (i + 1) cs)).2.filterMap
            startedIdx) := by
        simp [List.filterMap_cons, startedIdx]
      rw [hfm2]
      constructor
      · intro x hx
        rcases List.mem_cons.1 hx with rfl | hx2
        · exact le_refl x
        · have := iha x hx2
          omega
      · refine List.chain'_cons'.2 ⟨?_, ihc⟩
        intro b hb
        have := iha b (List.mem_of_mem_head? hb)
        omega
    · have hfm : (launchSlots env runId (makeSlots i (c :: cs))).2 =
          (launchSlots env runId (makeSlots (i + 1) cs)).2 := by
        simp [makeSlots, launchSlots, bool_false_of_not h]
      rw [hfm]
      refine ⟨fun x hx => ?_, ihc⟩
      have := iha x hx
      omega

theorem applyCompletions_events (env : Env) (rid : Nat)
    (sts : List LifecycleEvent) (base : List LifecycleEvent) :
    ∀ (sched : List Nat) (r : Run) (cps : List LifecycleEvent),
      r.runId = rid →
      (∀ s ∈ r.slots, s.status = SlotStatus.Running →
        ∃ c, LifecycleEvent.Started rid s.agentIndex c ∈ sts) →
      (∀ e ∈ cps, ∃ i b, e = LifecycleEvent.Completed rid i b) →
      (∀ i b, LifecycleEvent.Completed rid i b ∈ cps →
        ∃ c, LifecycleEvent.Started rid i c ∈ sts) →
      ∃ cps2,
        (applyCompletions env sched (r, base ++ cps)).2 = base ++ cps2 ∧
        (∀ e ∈ cps2, ∃ i b, e = LifecycleEvent.Completed rid i b) ∧
        (∀ i b, LifecycleEvent.Completed rid i b ∈ cps2 →
          ∃ c, LifecycleEvent.Started rid i c ∈ sts) := by
  intro sched
  induction sched with
  | nil =>
    intro r cps h1 h2 h3 h4
    exact ⟨cps, rfl, h3, h4⟩
  | cons j sched ih =>
    intro r cps h1 h2 h3 h4
    rw [applyCompletions_cons]
    cases hf : findSlot r j with
    | none =>
      have heq : applyCompletion env (r, base ++ cps) j = (r, base ++ cps)
        := by simp [applyCompletion, hf]
      rw [heq]
      exact ih r cps h1 h2 h3 h4
    | some s =>
      by_cases hrun : (s.status == SlotStatus.Running) = true
      · have hsmem : s ∈ r.slots := List.mem_of_find?_eq_some hf
        have hsidx : s.agentIndex = j := by
          simpa using List.find?_some hf
        have hsrun : s.status = SlotStatus.Running := by simpa using hrun
        have heq : applyCompletion env (r, base ++ cps) j =
            (updateSlotStatus r j
              (if env.runResult j then SlotStatus.Succeeded
               else SlotStatus.Failed),
             (base ++ cps) ++
               [LifecycleEvent.Completed r.runId j (env.runResult j)]) := by
          simp [applyCompletion, hf, hrun]
        rw [heq]
        have happend : (base ++ cps) ++
            [LifecycleEvent.Completed r.runId j (env.runResult j)] =
            base ++ (cps ++
              [LifecycleEvent.Completed rid j (env.runResult j)]) := by
          rw [h1, List.append_assoc]
        rw [happend]
        refine ih (updateSlotStatus r j
            (if env.runResult j then SlotStatus.Succeeded
             else SlotStatus.Failed))
          (cps ++ [LifecycleEvent.Completed rid j (env.runResult j)])
          ?_ ?_ ?_ ?_
        · rw [updateSlot_runId, h1]
        · intro t ht htrun
          by_cases hterm : RunStatus.isTerminal r.overallStatus = true
          · rw [updateSlot_frozen r j _ hterm] at ht
            exact h2 t ht htrun
          · have hupd : (updateSlotStatus r j
                (if env.runResult j then SlotStatus.Succeeded
                 else SlotStatus.Failed)).slots =
                setSlotStatus r.slots j
                  (if env.runResult j then SlotStatus.Succeeded
                   else SlotStatus.Failed) := by
              simp [updateSlotStatus, bool_false_of_not hterm]
            rw [hupd] at ht
            simp only [setSlotStatus] at ht
            obtain ⟨t0, ht0, rfl⟩ := List.mem_map.1 ht
            by_cases hidx : t0.agentIndex = j
            · by_cases hrr : env.runResult j = true
              · simp [hidx, hrr] at htrun
              · simp [hidx, bool_false_of_not hrr] at htrun
            · rw [if_neg hidx] at htrun ⊢
              exact h2 t0 ht0 htrun
        · intro e he
          rcases List.mem_append.1 he with he | he
          · exact h3 e he
          · simp only [List.mem_singleton] at he
            exact ⟨j, env.runResult j, he⟩
        · intro i2 b2 hmem
          rcases List.mem_append.1 hmem with hmem | hmem
          · exact h4 i2 b2 hmem
          · simp only [List.mem_singleton] at hmem
            cases hmem
            obtain ⟨c, hc⟩ := h2 s hsmem hsrun
            rw [hsidx] at hc
            exact ⟨c, hc⟩
      · have heq : applyCompletion env (r, base ++ cps) j = (r, base ++ cps)
          := by simp [applyCompletion, hf, bool_false_of_not hrun]
        rw [heq]
        exact ih r cps h1 h2 h3 h4

/-- Claim C7: per-run event ordering, for every interleaving of the
concurrent agents' terminal callbacks: the run's event log is exactly the
StatusUpdate events, then the Started events, then the Completed events —
so every issue-phase StatusUpdate precedes every Started event; the Started
events appear in ascending agentIndex order; and each slot's Started event
precedes that slot's Completed event (a Completed exists only for a slot
whose Started was emitted, and all Started events precede all Completed
events in the log). -/
theorem event_ordering (st : SystemState) (env : Env) (req : FeatureRequest)
    (k : Nat) (names : List String) (alloc1 : AllocatorState)
    (sched : List Nat)
    (hv : validRequest req = true) (hi : env.issueResult = some k)
    (halloc : allocateAll st.allocator st.nextRunId req.agentCount =
      .ok (names, alloc1)) :
    ∃ sus sts cps,
      (runFeature st env req sched).2.events =
        ((st.events ++ sus) ++ sts) ++ cps
      ∧ (∀ e ∈ sus, ∃ ph, e = LifecycleEvent.StatusUpdate st.nextRunId ph)
      ∧ (∀ e ∈ sts, ∃ i b, e = LifecycleEvent.Started st.nextRunId i b)
      ∧ (∀ e ∈ cps, ∃ i b, e = LifecycleEvent.Completed st.nextRunId i b)
      ∧ List.Chain' (· < ·) (sts.filterMap startedIdx)
      ∧ (∀ i b, LifecycleEvent.Completed st.nextRunId i b ∈ cps →
          ∃ c, LifecycleEvent.Started st.nextRunId i c ∈ sts) := by
  have heq := executeFeature_ok_eq st env req k names alloc1 hv hi halloc
  have hev : (runFeature st env req sched).2.events =
      (applyCompletions env sched
        (⟨st.nextRunId, req, some k,
            (launchSlots env st.nextRunId (makeSlots 0 names)).1,
            recomputeOverall .Running
              (launchSlots env st.nextRunId (makeSlots 0 names)).1⟩,
         st.events ++
           LifecycleEvent.StatusUpdate st.nextRunId "creating_issue" ::
           LifecycleEvent.StatusUpdate st.nextRunId "issue_created" ::
           (launchSlots env st.nextRunId (makeSlots 0 names)).2)).2 := by
    simp [runFeature, heq]
  have hbase : st.events ++
      LifecycleEvent.StatusUpdate st.nextRunId "creating_issue" ::
      LifecycleEvent.StatusUpdate st.nextRunId "issue_created" ::
      (launchSlots env st.nextRunId (makeSlots 0 names)).2 =
      ((st.events ++
        [LifecycleEvent.StatusUpdate st.nextRunId "creating_issue",
         LifecycleEvent.StatusUpdate st.nextRunId "issue_created"]) ++
        (launchSlots env st.nextRunId (makeSlots 0 names)).2) ++ [] := by
    simp
  rw [hbase] at hev
  have hinv : ∀ s ∈ (⟨st.nextRunId, req, some k,
      (launchSlots env st.nextRunId (makeSlots 0 names)).1,
      recomputeOverall .Running
        (launchSlots env st.nextRunId (makeSlots 0 names)).1⟩ : Run).slots,
      s.status = SlotStatus.Running →
      ∃ c, LifecycleEvent.Started st.nextRunId s.agentIndex c ∈
        (launchSlots env st.nextRunId (makeSlots 0 names)).2 := by
    intro s hs hrun
    simp only [] at hs
    rw [launchSlots_fst] at hs
    obtain ⟨s0, hs0, rfl⟩ := List.mem_map.1 hs
    by_cases hb : env.startResult s0.agentIndex = true
    · refine ⟨s0.branchName, ?_⟩
      simp only [hb, if_true]
      exact launchSlots_snd_mem env st.nextRunId (makeSlots 0 names) s0
        hs0 hb
    · simp [bool_false_of_not hb] at hrun
  obtain ⟨cps2, hev2, hshape2, hcorr2⟩ :=
    applyCompletions_events env st.nextRunId
      (launchSlots env st.nextRunId (makeSlots 0 names)).2
      ((st.events ++
        [LifecycleEvent.StatusUpdate st.nextRunId "creating_issue",
         LifecycleEvent.StatusUpdate st.nextRunId "issue_created"]) ++
        (launchSlots env st.nextRunId (makeSlots 0 names)).2)
      sched
      ⟨st.nextRunId, req, some k,
        (launchSlots env st.nextRunId (makeSlots 0 names)).1,
        recomputeOverall .Running
          (launchSlots env st.nextRunId (makeSlots 0 names)).1⟩
      [] rfl hinv (by simp) (by simp)
  refine ⟨[LifecycleEvent.StatusUpdate st.nextRunId "creating_issue",
    LifecycleEvent.StatusUpdate st.nextRunId "issue_created"],
    (launchSlots env st.nextRunId (makeSlots 0 names)).2, cps2,
    ?_, ?_, ?_, hshape2, ?_, hcorr2⟩
  · rw [hev]
    exact hev2
  · intro e he
    simp only [List.mem_cons, List.not_mem_nil, or_false] at he
    rcases he with rfl | rfl
    · exact ⟨"creating_issue", rfl⟩
    · exact ⟨"issue_created", rfl⟩
  · intro e he
    obtain ⟨s, hs, hb, rfl⟩ :=
      launchSlots_snd_shape env st.nextRunId (makeSlots 0 names) e he
    exact ⟨s.agentIndex, s.branchName, rfl⟩
  · exact (launch_make_ascending env st.nextRunId names 0).2

/-- Witness for C7 at concrete inputs: a three-agent run whose terminal
callbacks arrive in the interleaved order 2, 0, 1 still yields the
decomposed, ordered event log. -/
theorem event_ordering_witness :
    ∃ sus sts cps,
      (runFeature ⟨[], ⟨[]⟩, [], 0, 0⟩
        ⟨some 1, fun _ => true, fun _ => true⟩
        ⟨"/repo", "Add dark mode", 3⟩ [2, 0, 1]).2.events =
        ((([] : List LifecycleEvent) ++ sus) ++ sts) ++ cps
      ∧ (∀ e ∈ sus, ∃ ph, e = LifecycleEvent.StatusUpdate 0 ph)
      ∧ (∀ e ∈ sts, ∃ i b, e = LifecycleEvent.Started 0 i b)
      ∧ (∀ e ∈ cps, ∃ i b, e = LifecycleEvent.Completed 0 i b)
      ∧ List.Chain' (· < ·) (sts.filterMap startedIdx)
      ∧ (∀ i b, LifecycleEvent.Completed 0 i b ∈ cps →
          ∃ c, LifecycleEvent.Started 0 i c ∈ sts) :=
  event_ordering ⟨[], ⟨[]⟩, [], 0, 0⟩
    ⟨some 1, fun _ => true, fun _ => true⟩
    ⟨"/repo", "Add dark mode", 3⟩ 1
    ["feature/0/0", "feature/0/1", "feature/0/2"]
    ⟨["feature/0/2", "feature/0/1", "feature/0/0"]⟩ [2, 0, 1]
    rfl rfl (by rfl)

end Claudia
